import Mathlib

/-!
Verification of the harvest repository's edit arbiter (`src/core/src/edit.rs`),
ID allocator (`src/core/src/id.rs`), scheduler (`src/translate/src/scheduler.rs`)
and tool-run numbering (`src/core/src/diagnostics/tool_reporter.rs`).

The Rust code is shallowly embedded: representations (`dyn Representation`
trait objects) become a type parameter `Rep`, hash maps with unique keys become
association lists (`AList`), 64-bit counters become naturals with explicit
`2 ^ 64` bounds where overflow or process abort matters, and the global
"world" of one `Organizer` plus the `Edit`s it has issued becomes an explicit
state record.
-/

namespace Harvest

/-- IDs are nonzero 64-bit integers in the source (`NonZeroU64` in
`src/core/src/id.rs`); we model the numeric value as a natural number. -/
abbrev Id := Nat

/-- The `representations` field of `HarvestIR`
(`BTreeMap<Id, Arc<dyn Representation>>` in `src/core/src/ir.rs`), modelled as
an association list with unique keys. Only the map semantics matter to the
claims; the `BTreeMap` iteration order does not. -/
abbrev IRMap (Rep : Type) := AList (fun _ : Id => Rep)

/-- The `writable` field of `Edit`
(`HashMap<Id, Option<Box<dyn Representation>>>` in `src/core/src/edit.rs`):
every key is an ID this edit may write; `some` values are pending writes and
`none` values mean the ID will not be touched. -/
abbrev WritableMap (Rep : Type) := AList (fun _ : Id => Option Rep)

/-- Error type returned by `Organizer::new_edit`. -/
inductive NewEditError where
  | IdInUse
  | UnknownId
deriving DecidableEq

/-- Error type returned by `Organizer::apply_edit` (a unit struct in Rust). -/
inductive WrongOrganizer where
  | mk
deriving DecidableEq

/-- Error type returned by `Edit::try_write_id` (a unit struct in Rust). -/
inductive NotWritable where
  | mk
deriving DecidableEq

instance {α : Type} {β : α → Type} [DecidableEq α] [∀ a, DecidableEq (β a)] :
    DecidableEq (AList β) := fun xs ys =>
  if h : xs.entries = ys.entries then isTrue (AList.ext h)
  else isFalse fun hc => h (by rw [hc])

instance {e a : Type} [DecidableEq e] [DecidableEq a] : DecidableEq (Except e a) := fun x y =>
  match x, y with
  | .error x1, .error y1 =>
    if h : x1 = y1 then isTrue (by rw [h]) else isFalse (by simp [h])
  | .error _, .ok _ => isFalse (by simp)
  | .ok _, .error _ => isFalse (by simp)
  | .ok x1, .ok y1 =>
    if h : x1 = y1 then isTrue (by rw [h]) else isFalse (by simp [h])

/-- An `Edit` value: `sid` identifies the `Shared` allocation of the organizer
that issued it (the Rust code compares `Arc` pointers with `Arc::ptr_eq`; we
give each organizer a numeric identity), `writable` is its map of writable IDs
to optional pending writes. -/
structure EditSt (Rep : Type) where
  sid : Nat
  writable : WritableMap Rep
deriving DecidableEq

/-- The organizer's own state: its `Shared` identity, the `HarvestIR` it owns
and the `in_use` set from its `Shared` allocation. -/
structure OrgCore (Rep : Type) where
  sid : Nat
  ir : IRMap Rep
  inUse : Finset Id
deriving DecidableEq

/-- The state of one organizer together with all `Edit`s it has issued that
are still live (neither applied nor dropped), and the process-global ID
counter of `src/core/src/id.rs`. -/
structure World (Rep : Type) where
  core : OrgCore Rep
  live : List (EditSt Rep)
  counter : Nat
deriving DecidableEq

variable {Rep : Type}

/-- The writable map of a fresh `Edit`:
`might_write.iter().map(|&id| (id, None)).collect()`. -/
def initWritable (Rep : Type) (mw : List Id) : WritableMap Rep :=
  ⟨mw.dedup.map fun id => ⟨id, none⟩, by
    simp [List.NodupKeys, List.keys, List.map_map, Function.comp_def, mw.nodup_dedup]⟩

/-- Embeds `Organizer::new_edit` (`src/core/src/edit.rs`): errors with `UnknownId` if
any requested ID is missing from the IR, then with `IdInUse` if any requested
ID is in the in-use set; otherwise inserts all requested IDs into the in-use
set and returns a fresh `Edit` whose writable map sends each requested ID to
`None`. In the world model the returned `Edit` is appended to the live list. -/
def newEdit (mw : List Id) (w : World Rep) : Except NewEditError (World Rep) :=
  if ∃ id ∈ mw, id ∉ w.core.ir then .error .UnknownId
  else if ∃ id ∈ mw, id ∈ w.core.inUse then .error .IdInUse
  else .ok { w with
    core := { w.core with inUse := w.core.inUse ∪ mw.toFinset },
    live := w.live ++ [⟨w.core.sid, initWritable Rep mw⟩] }

/-- The write-back loop of `Organizer::apply_edit`: for every entry of the
edit's `writable` map holding a pending representation, insert it into the IR
(`ir.representations.insert(id, representation)`); entries holding `None` are
skipped. -/
def applyWrites (ws : List (Sigma fun _ : Id => Option Rep)) (ir : IRMap Rep) : IRMap Rep :=
  ws.foldl
    (fun acc entry =>
      match entry.2 with
      | some r => acc.insert entry.1 r
      | none => acc)
    ir

/-- Embeds `impl Drop for Edit` (`src/core/src/edit.rs`): removes every key of the
edit's writable map from the organizer's in-use set; the IR is untouched. -/
def dropEditOrg (e : EditSt Rep) (o : OrgCore Rep) : OrgCore Rep :=
  { o with inUse := o.inUse \ e.writable.keys.toFinset }

/-- Embeds `Organizer::apply_edit` (`src/core/src/edit.rs`): rejects edits whose
`shared` allocation differs from the organizer's (`Arc::ptr_eq`); otherwise
writes every pending representation into the IR. The edit is consumed and
dropped in both branches; the drop removes its writable IDs from *its own*
organizer's in-use set, so on the success branch this organizer's in-use set
shrinks, and on the error branch this organizer is untouched. -/
def applyEditOrg (e : EditSt Rep) (o : OrgCore Rep) :
    Except WrongOrganizer Unit × OrgCore Rep :=
  if e.sid = o.sid then
    (.ok (), { o with
      ir := applyWrites e.writable.entries o.ir,
      inUse := o.inUse \ e.writable.keys.toFinset })
  else (.error .mk, o)

/-- Embeds `Id::new`, i.e. `new_array_testable::<1>`, acting on the shared counter
(`src/core/src/id.rs`): returns the successor of the counter and stores it
back. The source aborts the process when the 64-bit increment overflows; the
abort (no successor state) is modelled as `none`. -/
def idNew (c : Nat) : Option (Id × Nat) :=
  if c + 1 < 2 ^ 64 then some (c + 1, c + 1) else none

/-- Embeds `Edit::add_representation`: allocates a fresh ID and stores the given
representation as a pending write under it. The process-global ID counter is
threaded explicitly. -/
def addRepresentation (rep : Rep) (e : EditSt Rep) (c : Nat) :
    Option (Id × EditSt Rep × Nat) :=
  (idNew c).map fun p =>
    (p.1, { e with writable := e.writable.insert p.1 (some rep) }, p.2)

/-- Embeds `Edit::new_id`: allocates a fresh ID and gives this edit write access to it
with no pending write. -/
def editNewId (e : EditSt Rep) (c : Nat) : Option (Id × EditSt Rep × Nat) :=
  (idNew c).map fun p =>
    (p.1, { e with writable := e.writable.insert p.1 none }, p.2)

/-- Embeds `Edit::try_write_id`: replaces the pending write under `id` when this edit
can write `id` (`writable.get_mut(&id)` succeeds and the slot is overwritten),
errors with `NotWritable` otherwise. Overwriting the slot of an existing key is
modelled as `AList.insert` at that key. -/
def tryWriteId (id : Id) (rep : Rep) (e : EditSt Rep) : Except NotWritable (EditSt Rep) :=
  if id ∈ e.writable then .ok { e with writable := e.writable.insert id (some rep) }
  else .error .mk

/-- Embeds `Edit::write_id`: delegates to `Edit::try_write_id` and panics on its
error; the panic (no successor state) is modelled as `none`. -/
def writeId (id : Id) (rep : Rep) (e : EditSt Rep) : Option (EditSt Rep) :=
  (tryWriteId id rep e).toOption

/-- World-level `Organizer::apply_edit` of the `i`-th live edit: the edit is
consumed, so it leaves the live list, and the organizer core is updated by
`applyEditOrg`. -/
def worldApply (i : Nat) (w : World Rep) : World Rep :=
  match w.live[i]? with
  | none => w
  | some e => { w with core := (applyEditOrg e w.core).2, live := w.live.eraseIdx i }

/-- World-level drop of the `i`-th live edit without applying it. -/
def worldDrop (i : Nat) (w : World Rep) : World Rep :=
  match w.live[i]? with
  | none => w
  | some e => { w with core := dropEditOrg e w.core, live := w.live.eraseIdx i }

/-- World-level `Edit::new_id` on the `i`-th live edit; `none` models the
process abort on ID-counter overflow. -/
def worldNewId (i : Nat) (w : World Rep) : Option (World Rep) :=
  match w.live[i]? with
  | none => none
  | some e =>
    (editNewId e w.counter).map fun p =>
      { w with live := w.live.set i p.2.1, counter := p.2.2 }

/-- World-level `Edit::add_representation` on the `i`-th live edit. -/
def worldAddRep (rep : Rep) (i : Nat) (w : World Rep) : Option (World Rep) :=
  match w.live[i]? with
  | none => none
  | some e =>
    (addRepresentation rep e w.counter).map fun p =>
      { w with live := w.live.set i p.2.1, counter := p.2.2 }

/-- World-level `Edit::try_write_id` on the `i`-th live edit; on the
`NotWritable` error the edit is unchanged. -/
def worldTryWrite (id : Id) (rep : Rep) (i : Nat) (w : World Rep) : World Rep :=
  match w.live[i]? with
  | none => w
  | some e =>
    match tryWriteId id rep e with
    | .ok e2 => { w with live := w.live.set i e2 }
    | .error _ => w

/-- Two edits have disjoint writable ID sets. -/
def editsDisjoint (e1 e2 : EditSt Rep) : Prop :=
  ∀ id ∈ e1.writable.keys, id ∉ e2.writable.keys

instance (e1 e2 : EditSt Rep) : Decidable (editsDisjoint e1 e2) :=
  List.decidableBAll _ _

/-- The arbiter invariant: live edits have pairwise disjoint writable sets;
every writable ID of a live edit is either in the in-use set or absent from
the IR; and every ID in the in-use set, the IR or a live writable set is at
most the ID counter (all IDs come from the shared counter). -/
def Inv (w : World Rep) : Prop :=
  w.live.Pairwise editsDisjoint ∧
  (∀ e ∈ w.live, ∀ id ∈ e.writable.keys, id ∈ w.core.inUse ∨ id ∉ w.core.ir) ∧
  (∀ id ∈ w.core.inUse, id ≤ w.counter) ∧
  (∀ id ∈ w.core.ir.keys, id ≤ w.counter) ∧
  (∀ e ∈ w.live, ∀ id ∈ e.writable.keys, id ≤ w.counter)

instance (w : World Rep) : Decidable (Inv w) := by
  unfold Inv
  infer_instance

/-! ### Basic lemmas about the embedded operations -/

theorem dlookup_map_none (l : List Id) (id : Id) :
    List.dlookup id (l.map fun i => (⟨i, none⟩ : Sigma fun _ : Id => Option Rep)) =
      if id ∈ l then some none else none := by
  induction l with
  | nil => simp
  | cons a t ih =>
    by_cases h : id = a
    · subst h
      simp [List.dlookup_cons_eq]
    · simp only [List.map_cons, List.mem_cons, h, false_or]
      rw [List.dlookup_cons_ne _ _ h, ih]

theorem mem_initWritable {mw : List Id} {id : Id} :
    id ∈ initWritable Rep mw ↔ id ∈ mw := by
  simp [initWritable, AList.mem_keys, AList.keys, List.keys, List.map_map, Function.comp_def]

theorem lookup_initWritable {mw : List Id} {id : Id} :
    (initWritable Rep mw).lookup id = if id ∈ mw then some none else none := by
  have h : (initWritable Rep mw).lookup id =
      List.dlookup id (mw.dedup.map fun i => ⟨i, none⟩) := rfl
  rw [h, dlookup_map_none]
  simp

theorem keys_initWritable {mw : List Id} :
    (initWritable Rep mw).keys = mw.dedup := by
  simp [initWritable, AList.keys, List.keys, List.map_map, Function.comp_def]

theorem applyWrites_lookup {ws : List (Sigma fun _ : Id => Option Rep)}
    (hw : ws.NodupKeys) (ir : IRMap Rep) (id : Id) :
    (applyWrites ws ir).lookup id = (List.dlookup id ws).join.or (ir.lookup id) := by
  induction ws generalizing ir with
  | nil => simp [applyWrites]
  | cons s t ih =>
    obtain ⟨hk, ht⟩ := List.nodupKeys_cons.mp hw
    obtain ⟨k, v⟩ := s
    by_cases hid : id = k
    · subst hid
      have hnone : List.dlookup id t = none := List.dlookup_eq_none.mpr hk
      cases v with
      | some r =>
        show (applyWrites t (AList.insert id r ir)).lookup id = _
        rw [ih ht, hnone, List.dlookup_cons_eq]
        simp [AList.lookup_insert]
      | none =>
        show (applyWrites t ir).lookup id = _
        rw [ih ht, hnone, List.dlookup_cons_eq]
        simp
    · cases v with
      | some r =>
        show (applyWrites t (AList.insert k r ir)).lookup id = _
        rw [ih ht, List.dlookup_cons_ne _ _ hid, AList.lookup_insert_ne hid]
      | none =>
        show (applyWrites t ir).lookup id = _
        rw [ih ht, List.dlookup_cons_ne _ _ hid]

theorem mem_applyWrites {ws : List (Sigma fun _ : Id => Option Rep)}
    (hw : ws.NodupKeys) {ir : IRMap Rep} {id : Id}
    (h : id ∈ applyWrites ws ir) : id ∈ ws.keys ∨ id ∈ ir := by
  by_contra hc
  push_neg at hc
  obtain ⟨h1, h2⟩ := hc
  have hs := AList.lookup_isSome.mpr h
  rw [applyWrites_lookup hw, List.dlookup_eq_none.mpr h1, AList.lookup_eq_none.mpr h2] at hs
  simp at hs

theorem newEdit_ok_iff {mw : List Id} {w w2 : World Rep} :
    newEdit mw w = .ok w2 ↔
      (∀ id ∈ mw, id ∈ w.core.ir) ∧ (∀ id ∈ mw, id ∉ w.core.inUse) ∧
      w2 = { w with
        core := { w.core with inUse := w.core.inUse ∪ mw.toFinset },
        live := w.live ++ [⟨w.core.sid, initWritable Rep mw⟩] } := by
  unfold newEdit
  split
  · next h =>
    simp only [reduceCtorEq, false_iff]
    intro ⟨h1, _, _⟩
    obtain ⟨id, hm, hni⟩ := h
    exact hni (h1 id hm)
  · next h =>
    push_neg at h
    split
    · next h2 =>
      simp only [reduceCtorEq, false_iff]
      intro ⟨_, hnu, _⟩
      obtain ⟨id, hm, hu⟩ := h2
      exact hnu id hm hu
    · next h2 =>
      push_neg at h2
      simp only [Except.ok.injEq]
      constructor
      · intro hw2
        exact ⟨h, h2, hw2.symm⟩
      · intro hc
        exact hc.2.2.symm

theorem newEdit_error_unknown_iff {mw : List Id} {w : World Rep} :
    newEdit mw w = .error .UnknownId ↔ ∃ id ∈ mw, id ∉ w.core.ir := by
  constructor
  · intro heq
    unfold newEdit at heq
    split at heq
    · next h => exact h
    · split at heq <;> simp at heq
  · intro h
    unfold newEdit
    rw [if_pos h]

theorem newEdit_error_inUse_iff {mw : List Id} {w : World Rep} :
    newEdit mw w = .error .IdInUse ↔
      (∀ id ∈ mw, id ∈ w.core.ir) ∧ ∃ id ∈ mw, id ∈ w.core.inUse := by
  constructor
  · intro heq
    unfold newEdit at heq
    split at heq
    · simp at heq
    · next h =>
      push_neg at h
      split at heq
      · next h2 => exact ⟨h, h2⟩
      · simp at heq
  · intro ⟨h, h2⟩
    have hni : ¬∃ id ∈ mw, id ∉ w.core.ir := by
      push_neg
      exact h
    unfold newEdit
    rw [if_neg hni, if_pos h2]

theorem editsDisjoint_symm {e1 e2 : EditSt Rep} (h : editsDisjoint e1 e2) :
    editsDisjoint e2 e1 := by
  intro id h2 h1
  exact h id h1 h2

theorem mem_keys_insert {al : WritableMap Rep} {k id : Id} {v : Option Rep} :
    id ∈ (al.insert k v).keys ↔ id = k ∨ id ∈ al.keys := by
  rw [← AList.mem_keys, AList.mem_insert, AList.mem_keys]

theorem pairwise_getElem_eraseIdx {α : Type} {R : α → α → Prop}
    (l : List α) (i : Nat) {e e2 : α} (hp : l.Pairwise R) (hi : l[i]? = some e)
    (hm : e2 ∈ l.eraseIdx i) : R e e2 ∨ R e2 e := by
  induction l generalizing i with
  | nil => simp at hi
  | cons a t ih =>
    obtain ⟨hhead, htail⟩ := List.pairwise_cons.mp hp
    cases i with
    | zero =>
      simp only [List.getElem?_cons_zero, Option.some.injEq] at hi
      subst hi
      rw [List.eraseIdx_cons_zero] at hm
      exact Or.inl (hhead e2 hm)
    | succ n =>
      rw [List.getElem?_cons_succ] at hi
      rw [List.eraseIdx_cons_succ] at hm
      rcases List.mem_cons.mp hm with rfl | hmt
      · exact Or.inr (hhead e (List.getElem?_mem hi))
      · exact ih n htail hi hmt

theorem pairwise_set_of {α : Type} {R : α → α → Prop}
    (l : List α) (i : Nat) {e e2 : α} (hp : l.Pairwise R) (hi : l[i]? = some e)
    (h1 : ∀ x ∈ l, R e x → R e2 x) (h2 : ∀ x ∈ l, R x e → R x e2) :
    (l.set i e2).Pairwise R := by
  induction l generalizing i with
  | nil => simp
  | cons a t ih =>
    obtain ⟨hhead, htail⟩ := List.pairwise_cons.mp hp
    cases i with
    | zero =>
      simp only [List.getElem?_cons_zero, Option.some.injEq] at hi
      subst hi
      rw [List.set_cons_zero]
      refine List.pairwise_cons.mpr ⟨?_, htail⟩
      intro x hx
      exact h1 x (List.mem_cons_of_mem _ hx) (hhead x hx)
    | succ n =>
      rw [List.getElem?_cons_succ] at hi
      rw [List.set_cons_succ]
      refine List.pairwise_cons.mpr ⟨?_, ?_⟩
      · intro x hx
        rcases List.mem_or_eq_of_mem_set hx with hxt | rfl
        · exact hhead x hxt
        · exact h2 a (List.mem_cons_self a t) (hhead e (List.getElem?_mem hi))
      · exact ih n htail hi (fun x hx => h1 x (List.mem_cons_of_mem _ hx))
          (fun x hx => h2 x (List.mem_cons_of_mem _ hx))

/-! ### Preservation of the arbiter invariant -/

theorem Inv_newEdit {mw : List Id} {w w2 : World Rep} (hinv : Inv w)
    (h : newEdit mw w = .ok w2) : Inv w2 := by
  obtain ⟨hpw, hii, hb1, hb2, hb3⟩ := hinv
  obtain ⟨hir, hfree, rfl⟩ := newEdit_ok_iff.mp h
  refine ⟨?_, ?_, ?_, ?_, ?_⟩
  · rw [List.pairwise_append]
    refine ⟨hpw, List.pairwise_singleton _ _, ?_⟩
    intro x hx y hy
    rw [List.mem_singleton] at hy
    subst hy
    intro id hmem hmem2
    have hidmw : id ∈ mw := by
      rw [keys_initWritable, List.mem_dedup] at hmem2
      exact hmem2
    rcases hii x hx id hmem with hu | hni
    · exact hfree id hidmw hu
    · exact hni (hir id hidmw)
  · intro e he id hid
    rcases List.mem_append.mp he with he | he
    · rcases hii e he id hid with hu | hni
      · exact Or.inl (Finset.mem_union_left _ hu)
      · exact Or.inr hni
    · rw [List.mem_singleton] at he
      subst he
      have hidmw : id ∈ mw := by
        rw [keys_initWritable, List.mem_dedup] at hid
        exact hid
      exact Or.inl (Finset.mem_union_right _ (List.mem_toFinset.mpr hidmw))
  · intro id hid
    rcases Finset.mem_union.mp hid with hu | hu
    · exact hb1 id hu
    · exact hb2 id (AList.mem_keys.mp (hir id (List.mem_toFinset.mp hu)))
  · exact hb2
  · intro e he id hid
    rcases List.mem_append.mp he with he | he
    · exact hb3 e he id hid
    · rw [List.mem_singleton] at he
      subst he
      have hidmw : id ∈ mw := by
        rw [keys_initWritable, List.mem_dedup] at hid
        exact hid
      exact hb2 id (AList.mem_keys.mp (hir id hidmw))

theorem Inv_worldDrop {w : World Rep} (hinv : Inv w) (i : Nat) :
    Inv (worldDrop i w) := by
  obtain ⟨hpw, hii, hb1, hb2, hb3⟩ := hinv
  unfold worldDrop
  split
  · exact ⟨hpw, hii, hb1, hb2, hb3⟩
  · next e hgi =>
    refine ⟨?_, ?_, ?_, ?_, ?_⟩
    · exact hpw.sublist (List.eraseIdx_sublist _ _)
    · intro e2 he2 id hid
      have he2l : e2 ∈ w.live := (List.eraseIdx_sublist w.live i).subset he2
      rcases hii e2 he2l id hid with hu | hni
      · left
        simp only [dropEditOrg, Finset.mem_sdiff, List.mem_toFinset]
        refine ⟨hu, ?_⟩
        intro hke
        rcases pairwise_getElem_eraseIdx w.live i hpw hgi he2 with hd | hd
        · exact hd id hke hid
        · exact hd id hid hke
      · exact Or.inr hni
    · intro id hid
      simp only [dropEditOrg, Finset.mem_sdiff] at hid
      exact hb1 id hid.1
    · exact hb2
    · intro e2 he2 id hid
      exact hb3 e2 ((List.eraseIdx_sublist w.live i).subset he2) id hid

theorem Inv_worldApply {w : World Rep} (hinv : Inv w) (i : Nat) :
    Inv (worldApply i w) := by
  obtain ⟨hpw, hii, hb1, hb2, hb3⟩ := hinv
  unfold worldApply
  split
  · exact ⟨hpw, hii, hb1, hb2, hb3⟩
  · next e hgi =>
    have hel : e ∈ w.live := List.getElem?_mem hgi
    unfold applyEditOrg
    by_cases hsid : e.sid = w.core.sid
    · rw [if_pos hsid]
      refine ⟨?_, ?_, ?_, ?_, ?_⟩
      · exact hpw.sublist (List.eraseIdx_sublist _ _)
      · intro e2 he2 id hid
        have he2l : e2 ∈ w.live := (List.eraseIdx_sublist w.live i).subset he2
        have hdisj : id ∉ e.writable.keys := by
          intro hke
          rcases pairwise_getElem_eraseIdx w.live i hpw hgi he2 with hd | hd
          · exact hd id hke hid
          · exact hd id hid hke
        rcases hii e2 he2l id hid with hu | hni
        · left
          simp only [Finset.mem_sdiff, List.mem_toFinset]
          exact ⟨hu, hdisj⟩
        · right
          intro hmem
          rcases mem_applyWrites e.writable.nodupKeys hmem with hk | hk
          · exact hdisj hk
          · exact hni hk
      · intro id hid
        simp only [Finset.mem_sdiff] at hid
        exact hb1 id hid.1
      · intro id hid
        rw [← AList.mem_keys] at hid
        rcases mem_applyWrites e.writable.nodupKeys hid with hk | hk
        · exact hb3 e hel id hk
        · exact hb2 id (AList.mem_keys.mp hk)
      · intro e2 he2 id hid
        exact hb3 e2 ((List.eraseIdx_sublist w.live i).subset he2) id hid
    · rw [if_neg hsid]
      refine ⟨hpw.sublist (List.eraseIdx_sublist _ _), ?_, hb1, hb2, ?_⟩
      · intro e2 he2 id hid
        exact hii e2 ((List.eraseIdx_sublist w.live i).subset he2) id hid
      · intro e2 he2 id hid
        exact hb3 e2 ((List.eraseIdx_sublist w.live i).subset he2) id hid

theorem Inv_liveInsertFresh {w : World Rep} (hinv : Inv w) {i : Nat} {e : EditSt Rep}
    (hgi : w.live[i]? = some e) (v : Option Rep) :
    Inv { w with
      live := w.live.set i { e with writable := e.writable.insert (w.counter + 1) v },
      counter := w.counter + 1 } := by
  obtain ⟨hpw, hii, hb1, hb2, hb3⟩ := hinv
  have hel : e ∈ w.live := List.getElem?_mem hgi
  have hfresh : ∀ e2 ∈ w.live, w.counter + 1 ∉ e2.writable.keys := by
    intro e2 he2 hk
    exact Nat.not_succ_le_self w.counter (hb3 e2 he2 _ hk)
  refine ⟨?_, ?_, ?_, ?_, ?_⟩
  · refine pairwise_set_of w.live i hpw hgi ?_ ?_
    · intro x hx hd id hke
      rcases mem_keys_insert.mp hke with rfl | hke
      · exact fun hkx => hfresh x hx hkx
      · exact hd id hke
    · intro x hx hd id hkx
      intro hke
      rcases mem_keys_insert.mp hke with rfl | hke
      · exact hfresh x hx hkx
      · exact hd id hkx hke
  · intro e2 he2 id hid
    rcases List.mem_or_eq_of_mem_set he2 with he2l | rfl
    · exact hii e2 he2l id hid
    · simp only at hid
      rcases mem_keys_insert.mp hid with rfl | hke
      · right
        intro hmem
        exact Nat.not_succ_le_self w.counter (hb2 _ (AList.mem_keys.mp hmem))
      · exact hii e hel id hke
  · intro id hid
    exact Nat.le_succ_of_le (hb1 id hid)
  · intro id hid
    exact Nat.le_succ_of_le (hb2 id hid)
  · intro e2 he2 id hid
    rcases List.mem_or_eq_of_mem_set he2 with he2l | rfl
    · exact Nat.le_succ_of_le (hb3 e2 he2l id hid)
    · simp only at hid
      rcases mem_keys_insert.mp hid with rfl | hke
      · exact Nat.le_refl _
      · exact Nat.le_succ_of_le (hb3 e hel id hke)

theorem Inv_worldNewId {w w2 : World Rep} (hinv : Inv w) {i : Nat}
    (h : worldNewId i w = some w2) : Inv w2 := by
  unfold worldNewId at h
  split at h
  · exact Option.noConfusion h
  · next e hgi =>
    unfold editNewId idNew at h
    split at h
    · simp only [Option.map_some'] at h
      cases h
      exact Inv_liveInsertFresh hinv hgi none
    · exact Option.noConfusion h

theorem Inv_worldAddRep {w w2 : World Rep} (hinv : Inv w) {rep : Rep} {i : Nat}
    (h : worldAddRep rep i w = some w2) : Inv w2 := by
  unfold worldAddRep at h
  split at h
  · exact Option.noConfusion h
  · next e hgi =>
    unfold addRepresentation idNew at h
    split at h
    · simp only [Option.map_some'] at h
      cases h
      exact Inv_liveInsertFresh hinv hgi (some rep)
    · exact Option.noConfusion h

theorem worldApply_some {w : World Rep} {i : Nat} {e : EditSt Rep}
    (hgi : w.live[i]? = some e) :
    worldApply i w =
      { w with core := (applyEditOrg e w.core).2, live := w.live.eraseIdx i } := by
  unfold worldApply
  rw [hgi]

theorem worldDrop_some {w : World Rep} {i : Nat} {e : EditSt Rep}
    (hgi : w.live[i]? = some e) :
    worldDrop i w = { w with core := dropEditOrg e w.core, live := w.live.eraseIdx i } := by
  unfold worldDrop
  rw [hgi]

/-! ### Sample states used by the witnesses -/

/-- An empty organizer world: default `Organizer`, no live edits, ID counter 0. -/
def sampleWorld0 : World Nat :=
  { core := { sid := 0, ir := ∅, inUse := ∅ }, live := [], counter := 0 }

/-- The writable map of `sampleEdit`: 1 has a pending write `42`, 2 has none. -/
def sampleWritable : WritableMap Nat :=
  AList.insert 2 none (AList.insert 1 (some 42) ∅)

/-- A sample edit for organizer 0 that can write IDs 1 (pending write `42`)
and 2 (no pending write). -/
def sampleEdit : EditSt Nat :=
  ⟨0, sampleWritable⟩

/-- The IR of `sampleWorld1`: 1 ↦ 7, 2 ↦ 8, 3 ↦ 9. -/
def sampleIR : IRMap Nat :=
  AList.insert 3 9 (AList.insert 2 8 (AList.insert 1 7 ∅))

/-- A sample world for organizer 0: IR maps 1 ↦ 7 and 2 ↦ 8 and 3 ↦ 9, IDs 1
and 2 are claimed by the live edit `sampleEdit`. -/
def sampleWorld1 : World Nat :=
  { core := { sid := 0, ir := sampleIR, inUse := {1, 2} },
    live := [sampleEdit],
    counter := 3 }

/-! ### Claim theorems -/

/-- C1: Disjoint writers invariant. Under the arbiter invariant `Inv` — whose
first clause says the writable ID sets of the live edits issued by the
organizer are pairwise disjoint — every operation that changes a writable set
or edit liveness (`Organizer::new_edit`, `Edit::add_representation`,
`Edit::new_id`, `Organizer::apply_edit`, and dropping an `Edit`) preserves
`Inv`, hence preserves pairwise disjointness of live writable sets. -/
theorem disjoint_writers_invariant {Rep : Type} (w : World Rep) (hinv : Inv w) :
    w.live.Pairwise editsDisjoint ∧
    (∀ mw w2, newEdit mw w = .ok w2 → Inv w2) ∧
    (∀ rep i w2, worldAddRep rep i w = some w2 → Inv w2) ∧
    (∀ i w2, worldNewId i w = some w2 → Inv w2) ∧
    (∀ i, Inv (worldApply i w)) ∧
    (∀ i, Inv (worldDrop i w)) :=
  ⟨hinv.1, fun _ _ h => Inv_newEdit hinv h, fun _ _ _ h => Inv_worldAddRep hinv h,
   fun _ _ h => Inv_worldNewId hinv h, fun i => Inv_worldApply hinv i,
   fun i => Inv_worldDrop hinv i⟩

/-- Witness for C1 at a concrete world satisfying the invariant. -/
theorem disjoint_writers_invariant_witness :
    Inv sampleWorld1 ∧
    (sampleWorld1.live.Pairwise editsDisjoint ∧
      (∀ mw w2, newEdit mw sampleWorld1 = .ok w2 → Inv w2) ∧
      (∀ rep i w2, worldAddRep rep i sampleWorld1 = some w2 → Inv w2) ∧
      (∀ i w2, worldNewId i sampleWorld1 = some w2 → Inv w2) ∧
      (∀ i, Inv (worldApply i sampleWorld1)) ∧
      (∀ i, Inv (worldDrop i sampleWorld1))) :=
  ⟨by decide, disjoint_writers_invariant sampleWorld1 (by decide)⟩

/-- C2: Apply frame condition. A successful `apply_edit` of edit `e` on the
organizer that issued it maps every ID with a pending write to that pending
representation (insert-or-replace), and leaves every other ID — writable IDs
with no pending write and IDs outside the writable set — bound to exactly the
representation it had before: the new IR lookup is the pending write when one
exists and the old lookup otherwise. -/
theorem apply_edit_frame {Rep : Type} (w : World Rep) (i : Nat) (e : EditSt Rep)
    (id : Id) (hgi : w.live[i]? = some e) (hsid : e.sid = w.core.sid) :
    (worldApply i w).core.ir.lookup id =
      (e.writable.lookup id).join.or (w.core.ir.lookup id) := by
  rw [worldApply_some hgi]
  have h2 : (applyEditOrg e w.core).2.ir = applyWrites e.writable.entries w.core.ir := by
    unfold applyEditOrg
    rw [if_pos hsid]
  show (applyEditOrg e w.core).2.ir.lookup id = _
  rw [h2, applyWrites_lookup e.writable.nodupKeys]
  rfl

/-- Witness for C2: in `sampleWorld1`, applying `sampleEdit` replaces ID 1
(pending write 42), keeps ID 2 (writable, no pending write) at its old value
8, and keeps ID 3 (not writable) at its old value 9. -/
theorem apply_edit_frame_witness :
    ((worldApply 0 sampleWorld1).core.ir.lookup 1 =
        (sampleEdit.writable.lookup 1).join.or (sampleWorld1.core.ir.lookup 1) ∧
      (worldApply 0 sampleWorld1).core.ir.lookup 1 = some 42) ∧
    ((worldApply 0 sampleWorld1).core.ir.lookup 2 =
        (sampleEdit.writable.lookup 2).join.or (sampleWorld1.core.ir.lookup 2) ∧
      (worldApply 0 sampleWorld1).core.ir.lookup 2 = some 8) ∧
    ((worldApply 0 sampleWorld1).core.ir.lookup 3 =
        (sampleEdit.writable.lookup 3).join.or (sampleWorld1.core.ir.lookup 3) ∧
      (worldApply 0 sampleWorld1).core.ir.lookup 3 = some 9) :=
  ⟨⟨apply_edit_frame sampleWorld1 0 sampleEdit 1 rfl rfl, by decide⟩,
   ⟨apply_edit_frame sampleWorld1 0 sampleEdit 2 rfl rfl, by decide⟩,
   ⟨apply_edit_frame sampleWorld1 0 sampleEdit 3 rfl rfl, by decide⟩⟩

/-- C3: `new_edit` error priority and raises-iff. `UnknownId` is returned
exactly when some requested ID is absent from the IR (even if another
requested ID is in use); `IdInUse` is returned exactly when every requested
ID is in the IR and at least one is in the in-use set; otherwise the call
succeeds, leaves the IR unchanged, marks exactly the requested IDs as
additionally in use, and issues an empty edit whose writable set is exactly
the requested set with no pending writes. -/
theorem new_edit_error_priority {Rep : Type} (mw : List Id) (w : World Rep) :
    (newEdit mw w = .error .UnknownId ↔ ∃ id ∈ mw, id ∉ w.core.ir) ∧
    (newEdit mw w = .error .IdInUse ↔
      (∀ id ∈ mw, id ∈ w.core.ir) ∧ ∃ id ∈ mw, id ∈ w.core.inUse) ∧
    ((∀ id ∈ mw, id ∈ w.core.ir) → (∀ id ∈ mw, id ∉ w.core.inUse) →
      newEdit mw w = .ok { w with
        core := { w.core with inUse := w.core.inUse ∪ mw.toFinset },
        live := w.live ++ [⟨w.core.sid, initWritable Rep mw⟩] }) ∧
    (∀ id, id ∈ initWritable Rep mw ↔ id ∈ mw) ∧
    (∀ id, (initWritable Rep mw).lookup id = if id ∈ mw then some none else none) := by
  refine ⟨newEdit_error_unknown_iff, newEdit_error_inUse_iff, ?_, ?_, ?_⟩
  · intro h1 h2
    exact newEdit_ok_iff.mpr ⟨h1, h2, rfl⟩
  · intro id
    exact mem_initWritable
  · intro id
    exact lookup_initWritable

/-- The writable map of the C4 counterexample edit after `Edit::new_id`: it
holds ID 1 with no pending write, and ID 1 is not in the IR. -/
def cexWritable : WritableMap Nat := AList.insert 1 none (initWritable Nat [])

/-- C4 counterexample: the claim fails as stated. Starting from an empty
organizer, create an empty edit, then let it allocate a fresh ID with
`Edit::new_id` (ID 1, writable but never added to the IR). After dropping the
edit, a `new_edit` whose might_write set contains that writable ID fails with
`UnknownId`, because the ID was never inserted into the IR. A second scenario:
even when a dropped edit's writable ID 1 is in the IR (`sampleWorld1`), a
might_write set that merely contains it can still fail because of another
requested ID. -/
theorem edit_drop_claim_counterexample :
    newEdit ([] : List Id) sampleWorld0 =
      .ok { core := { sid := 0, ir := ∅, inUse := ∅ },
            live := [⟨0, initWritable Nat []⟩], counter := 0 } ∧
    worldNewId 0 { core := { sid := 0, ir := ∅, inUse := ∅ },
                   live := [⟨0, initWritable Nat []⟩], counter := 0 } =
      some { core := { sid := 0, ir := ∅, inUse := ∅ },
             live := [⟨0, cexWritable⟩], counter := 1 } ∧
    (1 : Id) ∈ cexWritable.keys ∧
    newEdit ([1] : List Id)
        (worldDrop 0 { core := { sid := 0, ir := ∅, inUse := ∅ },
                       live := [⟨0, cexWritable⟩], counter := 1 }) =
      .error .UnknownId ∧
    newEdit ([1, 99] : List Id) (worldDrop 0 sampleWorld1) = .error .UnknownId := by
  decide

/-- C4 (amended): after dropping an Edit E without applying it, the IR is
untouched and none of E's writable IDs remains in the in-use set; hence a
subsequent `new_edit` whose might_write set consists of writable IDs of E
*that are present in the IR* succeeds. (The original claim, which allowed any
writable ID of E, fails for IDs allocated by `Edit::new_id` or
`Edit::add_representation` and never applied: they are writable but absent
from the IR, so `new_edit` fails with `UnknownId`.) -/
theorem edit_drop_releases {Rep : Type} (w : World Rep) (i : Nat) (e : EditSt Rep)
    (mw : List Id) (hgi : w.live[i]? = some e)
    (hsub : ∀ id ∈ mw, id ∈ e.writable.keys) (hir : ∀ id ∈ mw, id ∈ w.core.ir) :
    (worldDrop i w).core.ir = w.core.ir ∧
    (∀ id ∈ e.writable.keys, id ∉ (worldDrop i w).core.inUse) ∧
    ∃ w2, newEdit mw (worldDrop i w) = .ok w2 := by
  rw [worldDrop_some hgi]
  refine ⟨rfl, ?_, ?_⟩
  · intro id hkeys hmem
    have : id ∈ w.core.inUse \ e.writable.keys.toFinset := hmem
    rw [Finset.mem_sdiff, List.mem_toFinset] at this
    exact this.2 hkeys
  · refine ⟨_, newEdit_ok_iff.mpr ⟨?_, ?_, rfl⟩⟩
    · intro id hid
      exact hir id hid
    · intro id hid hmem
      have : id ∈ w.core.inUse \ e.writable.keys.toFinset := hmem
      rw [Finset.mem_sdiff, List.mem_toFinset] at this
      exact this.2 (hsub id hid)

/-- Witness for the amended C4: dropping `sampleEdit` from `sampleWorld1`
leaves the IR untouched, releases IDs 1 and 2, and `new_edit({1, 2})`
succeeds afterwards. -/
theorem edit_drop_releases_witness :
    ((worldDrop 0 sampleWorld1).core.ir = sampleWorld1.core.ir ∧
      (∀ id ∈ sampleEdit.writable.keys, id ∉ (worldDrop 0 sampleWorld1).core.inUse) ∧
      ∃ w2, newEdit ([1, 2] : List Id) (worldDrop 0 sampleWorld1) = .ok w2) :=
  edit_drop_releases sampleWorld1 0 sampleEdit [1, 2] rfl (by decide) (by decide)

/-- C7: cross-organizer rejection with atomicity. Applying an edit issued by
organizer `A` to a different organizer `B` (distinct `Shared` allocations,
hence distinct identities) returns `WrongOrganizer`, and `B`'s entire state —
in particular its IR — is unchanged. -/
theorem wrong_organizer_rejected {Rep : Type} (A B : OrgCore Rep) (e : EditSt Rep)
    (hA : e.sid = A.sid) (hAB : A.sid ≠ B.sid) :
    (applyEditOrg e B).1 = .error .mk ∧
    (applyEditOrg e B).2 = B ∧
    (applyEditOrg e B).2.ir = B.ir := by
  unfold applyEditOrg
  rw [if_neg (by rw [hA]; exact hAB)]
  exact ⟨rfl, rfl, rfl⟩

/-- Witness for C7: `sampleEdit` (issued by organizer 0) is rejected by an
organizer with identity 1, whose state is untouched. -/
theorem wrong_organizer_rejected_witness :
    (applyEditOrg sampleEdit ⟨1, sampleIR, ∅⟩).1 = .error .mk ∧
    (applyEditOrg sampleEdit ⟨1, sampleIR, ∅⟩).2 = ⟨1, sampleIR, ∅⟩ ∧
    (applyEditOrg sampleEdit ⟨1, sampleIR, ∅⟩).2.ir = (⟨1, sampleIR, ∅⟩ : OrgCore Nat).ir :=
  wrong_organizer_rejected ⟨0, sampleIR, {1, 2}⟩ ⟨1, sampleIR, ∅⟩ sampleEdit rfl (by decide)

/-- C9: `new_edit` with an empty might_write set always succeeds — for every
organizer state it returns `Ok` (never `UnknownId` or `IdInUse`), the issued
edit has an empty writable set, and the in-use set and the IR are unchanged. -/
theorem new_edit_empty_always_ok {Rep : Type} (w : World Rep) :
    ∃ w2, newEdit ([] : List Id) w = .ok w2 ∧
      w2.core = w.core ∧
      w2.live = w.live ++ [⟨w.core.sid, initWritable Rep []⟩] ∧
      (initWritable Rep ([] : List Id)).keys = [] := by
  refine ⟨{ w with
      core := { w.core with inUse := w.core.inUse ∪ ([] : List Id).toFinset },
      live := w.live ++ [⟨w.core.sid, initWritable Rep []⟩] },
    newEdit_ok_iff.mpr ⟨?_, ?_, rfl⟩, ?_, rfl, ?_⟩
  · intro id hid
    exact absurd hid (List.not_mem_nil id)
  · intro id hid
    exact absurd hid (List.not_mem_nil id)
  · show { w.core with inUse := w.core.inUse ∪ ([] : List Id).toFinset } = w.core
    cases w.core
    simp
  · rw [keys_initWritable]
    rfl

/-- The edit obtained from `sampleEdit` by writing `9` to ID 1. -/
def sampleEdit2 : EditSt Nat := ⟨0, AList.insert 1 (some 9) sampleEdit.writable⟩

/-- C10: last write wins within an Edit. Writing `r1` and then `r2` to the
same ID (each via `try_write_id`) leaves the edit in exactly the state of
writing only `r2`; after a successful write of `r2` the pending
representation under `id` is `r2`, and a subsequent successful `apply_edit`
on the issuing organizer stores exactly `r2` in the IR under `id`. The ID
freshly allocated by `Edit::add_representation` is writable, so later writes
replace its initial representation in the same way. -/
theorem last_write_wins {Rep : Type} (e e2 : EditSt Rep) (o : OrgCore Rep)
    (id : Id) (r1 r2 : Rep)
    (hw : tryWriteId id r2 e = .ok e2) (hsid : e2.sid = o.sid) :
    ((tryWriteId id r1 e).bind (tryWriteId id r2) = tryWriteId id r2 e) ∧
    e2.writable.lookup id = some (some r2) ∧
    (applyEditOrg e2 o).2.ir.lookup id = some r2 ∧
    (∀ (rep : Rep) (c : Nat) (p : Id × EditSt Rep × Nat),
      addRepresentation rep e c = some p → p.1 ∈ p.2.1.writable) := by
  have hlook : e2.writable.lookup id = some (some r2) := by
    unfold tryWriteId at hw
    split at hw
    · cases hw
      exact AList.lookup_insert _
    · exact absurd hw (by simp)
  refine ⟨?_, hlook, ?_, ?_⟩
  · by_cases hm : id ∈ e.writable
    · have h1 : tryWriteId id r1 e = .ok { e with writable := e.writable.insert id (some r1) } := by
        unfold tryWriteId
        rw [if_pos hm]
      have h2 : tryWriteId id r2 e = .ok { e with writable := e.writable.insert id (some r2) } := by
        unfold tryWriteId
        rw [if_pos hm]
      have hm2 : id ∈ AList.insert id (some r1) e.writable :=
        (AList.mem_insert _).mpr (Or.inl rfl)
      rw [h1, h2]
      show tryWriteId id r2 { e with writable := e.writable.insert id (some r1) } = _
      unfold tryWriteId
      rw [if_pos hm2]
      simp only [Except.ok.injEq]
      congr 1
      exact AList.insert_insert _
    · have h1 : tryWriteId id r1 e = .error .mk := by
        unfold tryWriteId
        rw [if_neg hm]
      have h2 : tryWriteId id r2 e = .error .mk := by
        unfold tryWriteId
        rw [if_neg hm]
      rw [h1, h2]
      rfl
  · unfold applyEditOrg
    rw [if_pos hsid]
    show (applyWrites e2.writable.entries o.ir).lookup id = some r2
    rw [applyWrites_lookup e2.writable.nodupKeys]
    have hdl : List.dlookup id e2.writable.entries = some (some r2) := hlook
    rw [hdl]
    rfl
  · intro rep c p h
    unfold addRepresentation idNew at h
    split at h
    · simp only [Option.map_some'] at h
      cases h
      exact (AList.mem_insert _).mpr (Or.inl rfl)
    · exact Option.noConfusion h

/-- Witness for C10 on `sampleEdit` in `sampleWorld1`: writing 5 then 9 to
ID 1 equals writing just 9, and applying stores 9. -/
theorem last_write_wins_witness :
    ((tryWriteId 1 5 sampleEdit).bind (tryWriteId 1 9) = tryWriteId 1 9 sampleEdit) ∧
    sampleEdit2.writable.lookup 1 = some (some 9) ∧
    (applyEditOrg sampleEdit2 sampleWorld1.core).2.ir.lookup 1 = some 9 ∧
    (∀ (rep : Nat) (c : Nat) (p : Id × EditSt Nat × Nat),
      addRepresentation rep sampleEdit c = some p → p.1 ∈ p.2.1.writable) :=
  last_write_wins sampleEdit sampleEdit2 sampleWorld1.core 1 5 9 (by decide) rfl

/-! ### ID allocation (`src/core/src/id.rs`) -/

/-- The loop body of `new_array_testable`: starting just after `prev`,
construct `n` successive IDs. Each step mirrors
`prev.checked_add(1).and_then(NonZeroU64::new)`: it fails (the source aborts
the process) when the 64-bit increment overflows or the result is zero. -/
def idsFrom : Nat → Nat → Option (List Nat)
  | _, 0 => some []
  | prev, n + 1 =>
    if prev + 1 < 2 ^ 64 ∧ 0 < prev + 1 then
      (idsFrom (prev + 1) n).map fun rest => (prev + 1) :: rest
    else none

/-- Embeds `new_array_testable` (`src/core/src/id.rs`) with array length `len` when
the shared counter holds `c`: `fetch_add(len)` stores `(c + len) mod 2^64`
back (Rust atomics wrap), and the returned IDs are built by the `map` loop
starting at `prev = c`; `none` models the process abort on overflow. -/
def new_array_testable (len c : Nat) : Option (List Nat) × Nat :=
  (idsFrom c len, (c + len) % 2 ^ 64)

/-- A sequence of `new_array_testable` calls with the given array lengths,
threading the shared counter and concatenating the returned IDs in allocation
order. -/
def allocSeq : List Nat → Nat → Option (List Nat) × Nat
  | [], c => (some [], c)
  | k :: ks, c =>
    match new_array_testable k c with
    | (none, c2) => (none, c2)
    | (some ids, c2) =>
      match allocSeq ks c2 with
      | (rest, c3) => (rest.map fun r => ids ++ r, c3)

theorem idsFrom_eq_range' {c n : Nat} (h : c + n < 2 ^ 64) :
    idsFrom c n = some (List.range' (c + 1) n) := by
  induction n generalizing c with
  | zero => rfl
  | succ n ih =>
    have h1 : c + 1 < 2 ^ 64 := by omega
    unfold idsFrom
    rw [if_pos ⟨h1, Nat.succ_pos c⟩, ih (by omega)]
    rw [List.range'_succ]
    rfl

theorem allocSeq_eq_range' (ks : List Nat) (c : Nat) (h : c + ks.sum < 2 ^ 64) :
    allocSeq ks c = (some (List.range' (c + 1) ks.sum), c + ks.sum) := by
  induction ks generalizing c with
  | nil => simp [allocSeq]
  | cons k ks ih =>
    rw [List.sum_cons] at h ⊢
    have hk : c + k < 2 ^ 64 := by omega
    unfold allocSeq
    rw [show new_array_testable k c = (some (List.range' (c + 1) k), c + k) from by
      unfold new_array_testable
      rw [idsFrom_eq_range' hk, Nat.mod_eq_of_lt hk]]
    dsimp only
    rw [ih (c + k) (by omega)]
    dsimp only [Option.map_some']
    have happ := List.range'_append (c + 1) k ks.sum 1
    rw [one_mul] at happ
    rw [show c + 1 + k = c + k + 1 from by omega] at happ
    rw [happ, Nat.add_comm ks.sum k, show c + k + ks.sum = c + (k + ks.sum) from by omega]

/-- C5: Id allocation correctness. With counter value `c` and no 64-bit
overflow, `new_array_testable` returns exactly the IDs `c+1 … c+len`
(`List.range' (c+1) len`) in strictly increasing order, all nonzero, and
leaves the counter at `c + len`; consequently a sequence of allocations
starting from counter 0 with sizes `ks` returns pairwise distinct IDs forming
the contiguous range `1 … ks.sum` in allocation order. -/
theorem id_allocation_correct (c len : Nat) (ks : List Nat)
    (h : c + len < 2 ^ 64) (hks : ks.sum < 2 ^ 64) :
    (new_array_testable len c = (some (List.range' (c + 1) len), c + len) ∧
      (List.range' (c + 1) len).Pairwise (· < ·) ∧
      (∀ id ∈ List.range' (c + 1) len, 0 < id) ∧
      (List.range' (c + 1) len).length = len) ∧
    (allocSeq ks 0 = (some (List.range' 1 ks.sum), ks.sum) ∧
      (List.range' 1 ks.sum).Nodup ∧
      (List.range' 1 ks.sum).length = ks.sum) := by
  refine ⟨⟨?_, List.pairwise_lt_range' _ _, ?_, List.length_range' _ _ _⟩, ?_, ?_,
    List.length_range' _ _ _⟩
  · unfold new_array_testable
    rw [idsFrom_eq_range' h, Nat.mod_eq_of_lt h]
  · intro id hid
    have := List.mem_range'_1.mp hid
    omega
  · have := allocSeq_eq_range' ks 0 (by omega)
    simpa using this
  · exact List.nodup_range' _ _

/-- Witness for C5: from counter 5 allocate 3 IDs (6, 7, 8); from counter 0
allocate with sizes 2, 3, 1 to get IDs 1 … 6. -/
theorem id_allocation_correct_witness :
    ((new_array_testable 3 5 = (some (List.range' 6 3), 8) ∧
      (List.range' 6 3).Pairwise (· < ·) ∧
      (∀ id ∈ List.range' 6 3, 0 < id) ∧
      (List.range' 6 3).length = 3) ∧
    (allocSeq [2, 3, 1] 0 = (some (List.range' 1 ([2, 3, 1] : List Nat).sum),
        ([2, 3, 1] : List Nat).sum) ∧
      (List.range' 1 ([2, 3, 1] : List Nat).sum).Nodup ∧
      (List.range' 1 ([2, 3, 1] : List Nat).sum).length = ([2, 3, 1] : List Nat).sum)) :=
  id_allocation_correct 5 3 [2, 3, 1] (by decide) (by decide)

/-! ### Scheduler (`src/translate/src/scheduler.rs`) -/

variable {τ ε : Type}

/-- Embeds `NextInvocationOutcome`: the callback's verdict on one offered tool
invocation. `TryLater` hands the tool back to be re-queued; `Error` makes
`next_invocations` return immediately. Tools (`Box<dyn Tool>`) are a type
parameter `τ`, errors (`Box<dyn Error>`) are `ε`. -/
inductive NextInvocationOutcome (τ ε : Type) where
  | DontTryAgain
  | TryLater (t : τ)
  | Error (e : ε)

/-- The loop of `Scheduler::next_invocations`: the old queue was moved out by
`std::mem::replace` and is traversed in FIFO order; `TryLater` tools are
pushed onto the new queue; on `Error` the function returns at once — the
not-yet-offered remainder of the moved-out old queue is dropped with the
loop's iterator, and the scheduler retains only the new queue. Returns the
call's result together with the queue contents afterwards. -/
def nextInvocationsGo (f : τ → NextInvocationOutcome τ ε) :
    List τ → List τ → Except ε Unit × List τ
  | [], newQueue => (.ok (), newQueue)
  | t :: rest, newQueue =>
    match f t with
    | .DontTryAgain => nextInvocationsGo f rest newQueue
    | .TryLater t2 => nextInvocationsGo f rest (newQueue ++ [t2])
    | .Error e => (.error e, newQueue)

/-- Embeds `Scheduler::next_invocations` on a scheduler whose queue holds `q`: the
queue is replaced by a fresh empty one and the old contents are offered to
`f` in order. -/
def nextInvocations (f : τ → NextInvocationOutcome τ ε) (q : List τ) :
    Except ε Unit × List τ :=
  nextInvocationsGo f q []

/-- C6 fails on the code: with tools `[1, 2]` queued and a callback that
returns `Error` on the first tool it is offered, `next_invocations` returns
the error but tool `2` — queued, never offered to the callback — is gone: it
is not in the scheduler's queue (which is left empty) and is not surfaced to
the caller, because the early return drops the moved-out remainder of the old
queue. -/
theorem scheduler_error_drops_unoffered :
    nextInvocations (fun _ : Nat => NextInvocationOutcome.Error 0) [1, 2] =
      (.error 0, ([] : List Nat)) ∧
    (2 : Nat) ∉ (nextInvocations (fun _ : Nat => NextInvocationOutcome.Error 0) [1, 2]).2 := by
  decide

/-! ### Tool run numbering (`src/core/src/diagnostics/tool_reporter.rs`) -/

/-- The `tool_run_counts` map of the diagnostics `Shared` state: tool name
(`ToolId` is conceptually the tool's `&'static str` name) to the last issued
run number (`NonZeroU64`, modelled as `Nat`). -/
abbrev RunCounts := AList (fun _ : String => Nat)

/-- The run-numbering step of `ToolReporter::new`, performed under the
diagnostics mutex: an occupied entry is bumped with `checked_add(1).unwrap()`
(the panic on 64-bit overflow is modelled as `none`), a vacant entry is set
to `NonZeroU64::MIN`, i.e. 1. Returns the issued run number and the updated
map. -/
def startToolRun (t : String) (m : RunCounts) : Option (Nat × RunCounts) :=
  match m.lookup t with
  | some k => if k + 1 < 2 ^ 64 then some (k + 1, m.insert t (k + 1)) else none
  | none => some (1, m.insert t 1)

/-- The run numbers issued by a sequence of `start_tool_run` calls with the
given tool names, in the order the calls entered the diagnostics mutex. -/
def runNumbers : List String → RunCounts → Option (List Nat)
  | [], _ => some []
  | t :: ts, m =>
    match startToolRun t m with
    | none => none
    | some p => (runNumbers ts p.2).map fun rest => p.1 :: rest

/-- Rust's `{:03}`-style formatting of an unsigned integer: the decimal
digits (`Nat.repr` models the `u64` decimal `Display`) left-padded with
zeros to at least `w` characters. -/
def rustZeroPad (w n : Nat) : String :=
  if (Nat.repr n).length < w then
    String.mk (List.replicate (w - (Nat.repr n).length) '0') ++ Nat.repr n
  else Nat.repr n

/-- Embeds `impl Display for ToolRunId`, i.e. the format `{tool}_{number:03}` of the tool name and the run
number — the name, an underscore, and the number zero-padded to three
digits. -/
def toolRunIdString (t : String) (n : Nat) : String :=
  t ++ "_" ++ rustZeroPad 3 n

/-- The per-run directory path built in `ToolReporter::new`:
`PathBuf::from_iter([diagnostics_dir, "steps", tool_run.to_string()])`, as
its list of components — the stringified run ID is the directory name,
verbatim. -/
def toolRunDir (diagDir t : String) (n : Nat) : List String :=
  [diagDir, "steps", toolRunIdString t n]

theorem runNumbers_spec (names : List String) (pre : List String) (m : RunCounts)
    (hm : ∀ t, (m.lookup t).getD 0 = pre.count t)
    (hlen : pre.length + names.length < 2 ^ 64) :
    runNumbers names m =
      some (names.mapIdx fun i t => (pre ++ names.take (i + 1)).count t) := by
  induction names generalizing pre m with
  | nil => simp [runNumbers]
  | cons t ts ih =>
    have hcount : pre.count t ≤ pre.length := List.count_le_length t pre
    have hstart : startToolRun t m = some (pre.count t + 1, m.insert t (pre.count t + 1)) := by
      unfold startToolRun
      cases hl : m.lookup t with
      | none =>
        have h0 : pre.count t = 0 := by
          have hx := hm t
          rw [hl] at hx
          exact hx.symm
        rw [h0]
      | some k =>
        have hk : k = pre.count t := by
          have hx := hm t
          rw [hl] at hx
          exact hx
        subst hk
        dsimp only
        rw [if_pos (show pre.count t + 1 < 2 ^ 64 by simp at hlen; omega)]
    have hm2 : ∀ s, ((m.insert t (pre.count t + 1)).lookup s).getD 0 = (pre ++ [t]).count s := by
      intro s
      by_cases hst : s = t
      · subst hst
        rw [AList.lookup_insert, List.count_append, List.count_singleton]
        simp
      · rw [AList.lookup_insert_ne hst, List.count_append, List.count_singleton, hm s]
        have hbeq : (t == s) = false := beq_eq_false_iff_ne.mpr (Ne.symm hst)
        rw [hbeq]
        simp
    unfold runNumbers
    rw [hstart]
    dsimp only
    rw [ih (pre ++ [t]) (m.insert t (pre.count t + 1)) hm2 (by simp at hlen ⊢; omega)]
    dsimp only [Option.map_some']
    rw [List.mapIdx_cons]
    refine congrArg some ?_
    simp only [List.cons.injEq]
    constructor
    · simp [List.count_append]
    · have hfun : (fun i s => ((pre ++ [t]) ++ ts.take (i + 1)).count s)
          = fun i s => (pre ++ (t :: ts).take (i + 1 + 1)).count s := by
        funext i s
        rw [List.take_succ_cons, List.append_assoc]
        rfl
      rw [hfun]

/-- C8: tool run numbering and naming. The `i`-th `start_tool_run` call (in
mutex order) with tool name `s` returns run number equal to the count of `s`
among the first `i + 1` calls — so for each name the numbers are 1, 2, 3, …;
the run identifier stringifies as the tool name, an underscore and the run
number zero-padded to three digits, and that string is used verbatim as the
run's directory name under `steps`. -/
theorem tool_run_numbering (names : List String) (t diagDir : String) (n : Nat)
    (hlen : names.length < 2 ^ 64) :
    runNumbers names ∅ = some (names.mapIdx fun i s => (names.take (i + 1)).count s) ∧
    toolRunIdString t n = t ++ "_" ++ rustZeroPad 3 n ∧
    rustZeroPad 3 n = String.mk (List.replicate (3 - (Nat.repr n).length) '0') ++ Nat.repr n ∧
    (rustZeroPad 3 n).length = max 3 (Nat.repr n).length ∧
    toolRunDir diagDir t n = [diagDir, "steps", toolRunIdString t n] ∧
    toolRunIdString "mock_tool" 1 = "mock_tool_001" := by
  refine ⟨?_, rfl, ?_, ?_, rfl, by decide⟩
  · have h := runNumbers_spec names [] ∅ (fun s => rfl) (by simpa using hlen)
    simpa using h
  · unfold rustZeroPad
    split
    · rfl
    · next hge =>
      have h0 : 3 - (Nat.repr n).length = 0 := by omega
      rw [h0]
      rfl
  · unfold rustZeroPad
    split
    · next hlt =>
      rw [String.length_append]
      have hml : (String.mk (List.replicate (3 - (Nat.repr n).length) '0')).length =
          3 - (Nat.repr n).length := by
        show (List.replicate (3 - (Nat.repr n).length) '0').length = _
        exact List.length_replicate _ _
      rw [hml]
      omega
    · next hge =>
      omega

/-- Witness for C8 at a concrete call sequence and run id. -/
theorem tool_run_numbering_witness :
    runNumbers ["a", "b", "a"] ∅ =
      some ((["a", "b", "a"] : List String).mapIdx fun i s =>
        ((["a", "b", "a"] : List String).take (i + 1)).count s) ∧
    toolRunIdString "a" 12 = "a" ++ "_" ++ rustZeroPad 3 12 ∧
    rustZeroPad 3 12 =
      String.mk (List.replicate (3 - (Nat.repr 12).length) '0') ++ Nat.repr 12 ∧
    (rustZeroPad 3 12).length = max 3 (Nat.repr 12).length ∧
    toolRunDir "diag" "a" 12 = ["diag", "steps", toolRunIdString "a" 12] ∧
    toolRunIdString "mock_tool" 1 = "mock_tool_001" :=
  tool_run_numbering ["a", "b", "a"] "a" "diag" 12 (by decide)

end Harvest
